import Mathlib

/-!
Verification of the core geospatial pipeline of the earthquakes globe
explorer: the temporal color mapper `getEarthquakeColorByTime`, the
longitude normalizer `normalizeLongitude` and the antimeridian segmenter
`processPlatesData` from `src/utils/globe.ts`, together with the
plate-data pipeline built in the `useData` hook (`loadData`), which
normalizes each coordinate pair and then hands the features to the
segmenter.

Numbers are modelled as exact rationals (`ℚ`); JavaScript `Math.round`
becomes `jsRound` (round half toward positive infinity); the two
`while` loops of the normalizer become well-founded recursions.
-/

namespace Earthquakes

/-- JavaScript `Math.round` on exact rationals: round to the nearest
integer, halves toward positive infinity. -/
def jsRound (q : ℚ) : ℤ := ⌊q + 1 / 2⌋

/-- The template literal of `getEarthquakeColorByTime`:
the string `rgba(r, g, b, 0.75)`. -/
def rgbaString (r g b : ℤ) : String :=
  "rgba(" ++ toString r ++ ", " ++ toString g ++ ", " ++ toString b ++ ", 0.75)"

/-- `getEarthquakeColorByTime` from `src/utils/globe.ts`. The source
receives the window as two ISO date strings and converts each with
`new Date(·).getTime()`; the embedding receives the two resulting epoch
timestamps (`startTime`, `endTime`) directly. Total function: no
exception is ever raised. -/
def getEarthquakeColorByTime (time startTime endTime : ℚ) : String :=
  if endTime ≤ startTime then "rgba(239, 68, 68, 0.75)"
  else
    let t : ℚ := (time - startTime) / (endTime - startTime)
    let old_r : ℚ := 220
    let old_g : ℚ := 210
    let old_b : ℚ := 215
    let recent_r : ℚ := 239
    let recent_g : ℚ := 68
    let recent_b : ℚ := 68
    let r := jsRound (old_r + (recent_r - old_r) * t)
    let g := jsRound (old_g + (recent_g - old_g) * t)
    let b := jsRound (old_b + (recent_b - old_b) * t)
    rgbaString r g b

/-- First `while` loop of `normalizeLongitude`:
`while (newLon <= -180) newLon += 360`. -/
def normLoopUp (x : ℚ) : ℚ :=
  if h : x ≤ -180 then normLoopUp (x + 360) else x
termination_by (⌊(-180 - x) / 360⌋ + 1).toNat
decreasing_by
  have hx : (0 : ℚ) ≤ (-180 - x) / 360 := by
    apply div_nonneg _ (by norm_num)
    linarith
  have h0 : (0 : ℤ) ≤ ⌊(-180 - x) / 360⌋ := Int.floor_nonneg.mpr hx
  have he : (-180 - (x + 360)) / 360 = (-180 - x) / 360 - 1 := by ring
  rw [he, Int.floor_sub_one]
  omega

/-- Second `while` loop of `normalizeLongitude`:
`while (newLon > 180) newLon -= 360`. -/
def normLoopDown (x : ℚ) : ℚ :=
  if h : 180 < x then normLoopDown (x - 360) else x
termination_by (⌊(x - 180) / 360⌋ + 1).toNat
decreasing_by
  have hx : (0 : ℚ) ≤ (x - 180) / 360 := by
    apply div_nonneg _ (by norm_num)
    linarith
  have h0 : (0 : ℤ) ≤ ⌊(x - 180) / 360⌋ := Int.floor_nonneg.mpr hx
  have he : (x - 360 - 180) / 360 = (x - 180) / 360 - 1 := by ring
  rw [he, Int.floor_sub_one]
  omega

/-- `normalizeLongitude` from `src/utils/globe.ts`: the two `while`
loops run in sequence on the mutable `newLon`. -/
def normalizeLongitude (lon : ℚ) : ℚ := normLoopDown (normLoopUp lon)

/-- A coordinate pair. The segmenter destructures the first component
(`const [lon1] = prevPoint`), so the comparison below is always on the
first component of whatever pair it is handed. -/
abbrev Point : Type := ℚ × ℚ

/-- A GeoJSON-style line feature: opaque metadata (everything the spread
`...feature` copies unchanged) plus the coordinate list of its geometry. -/
structure Feature (α : Type) where
  props : α
  coordinates : List Point
deriving DecidableEq

/-- Inner loop of `processPlatesData` over one feature's coordinates.
`prev` is `coordinates[index - 1]`, `rest` the points still to visit,
`currentSegment` the segment being accumulated. A segment is emitted
only when its length exceeds 1, both at a crossing and after the walk. -/
def segmentLoop (prev : Point) (rest : List Point) (currentSegment : List Point) :
    List (List Point) :=
  match rest with
  | [] => if 1 < currentSegment.length then [currentSegment] else []
  | point :: ps =>
      if 180 < |prev.1 - point.1| then
        (if 1 < currentSegment.length then [currentSegment] else []) ++
          segmentLoop point ps [point]
      else
        segmentLoop point ps (currentSegment ++ [point])

/-- The per-feature walk of `processPlatesData`: the first point starts
the current segment; an empty coordinate list emits nothing. -/
def segmentCoordinates (coordinates : List Point) : List (List Point) :=
  match coordinates with
  | [] => []
  | c :: cs => segmentLoop c cs [c]

/-- `processPlatesData` from `src/utils/globe.ts`: each emitted segment
is wrapped in a copy of the originating feature whose geometry gets the
segment as its coordinate array. -/
def processPlatesData {α : Type} (features : List (Feature α)) : List (Feature α) :=
  features.flatMap fun feature =>
    (segmentCoordinates feature.coordinates).map
      fun seg => { feature with coordinates := seg }

/-- Coordinate mapping of `loadData` in the `useData` hook
(`src/unnamed/part_001`): each raw `[lon, lat]` pair is replaced by
`[lat, normalizeLongitude lon]` — the normalized longitude is put in the
second slot and the latitude in the first. -/
def loadDataMapCoords (coords : List Point) : List Point :=
  coords.map fun c => (c.2, normalizeLongitude c.1)

/-- Per-feature normalization step of `loadData`: the feature is copied
with its coordinates passed through `loadDataMapCoords`. -/
def loadDataNormalizeFeature {α : Type} (f : Feature α) : Feature α :=
  { f with coordinates := loadDataMapCoords f.coordinates }

/-- The plate-data pipeline of `loadData`: normalize every feature, then
segment (`processPlatesData (normalizedFeatures)`). -/
def platesPipeline {α : Type} (features : List (Feature α)) : List (Feature α) :=
  processPlatesData (features.map loadDataNormalizeFeature)

/-- Absence of an antimeridian crossing between two consecutive points,
the negation of the segmenter's strict test `|lon1 - lon2| > 180`. -/
def noCross (a b : Point) : Prop := |a.1 - b.1| ≤ 180

theorem normLoopUp_of_gt (x : ℚ) (h : -180 < x) : normLoopUp x = x := by
  rw [normLoopUp, dif_neg (not_le.mpr h)]

theorem normLoopUp_step (x : ℚ) (h : x ≤ -180) :
    normLoopUp x = normLoopUp (x + 360) := by
  conv_lhs => rw [normLoopUp]
  rw [dif_pos h]

theorem normLoopDown_of_le (x : ℚ) (h : x ≤ 180) : normLoopDown x = x := by
  rw [normLoopDown, dif_neg (not_lt.mpr h)]

theorem normLoopDown_step (x : ℚ) (h : 180 < x) :
    normLoopDown x = normLoopDown (x - 360) := by
  conv_lhs => rw [normLoopDown]
  rw [dif_pos h]

theorem normLoopUp_gt (x : ℚ) : -180 < normLoopUp x := by
  induction x using normLoopUp.induct with
  | case1 x h ih => rw [normLoopUp_step x h]; exact ih
  | case2 x h => rw [normLoopUp_of_gt x (not_le.mp h)]; exact not_le.mp h

theorem normLoopDown_le (x : ℚ) : normLoopDown x ≤ 180 := by
  induction x using normLoopDown.induct with
  | case1 x h ih => rw [normLoopDown_step x h]; exact ih
  | case2 x h => rw [normLoopDown_of_le x (not_lt.mp h)]; exact not_lt.mp h

theorem normLoopDown_gt (x : ℚ) : -180 < x → -180 < normLoopDown x := by
  induction x using normLoopDown.induct with
  | case1 x h ih =>
      intro _
      rw [normLoopDown_step x h]
      exact ih (by linarith)
  | case2 x h =>
      intro hx
      rw [normLoopDown_of_le x (not_lt.mp h)]
      exact hx

/-- Evaluation of the normalizer on inputs already in range. -/
theorem normalizeLongitude_of_mem (x : ℚ) (h1 : -180 < x) (h2 : x ≤ 180) :
    normalizeLongitude x = x := by
  rw [normalizeLongitude, normLoopUp_of_gt x h1, normLoopDown_of_le x h2]

/-- Both emission sites of the segmenter are guarded by
`currentSegment.length > 1`, so no short segment ever escapes the loop. -/
theorem segmentLoop_length (rest : List Point) :
    ∀ (prev : Point) (cur seg : List Point),
      seg ∈ segmentLoop prev rest cur → 1 < seg.length := by
  induction rest with
  | nil =>
      intro prev cur seg hseg
      rw [segmentLoop] at hseg
      split at hseg
      · next h => rw [List.mem_singleton] at hseg; exact hseg ▸ h
      · exact absurd hseg (List.not_mem_nil seg)
  | cons point ps ih =>
      intro prev cur seg hseg
      rw [segmentLoop] at hseg
      split at hseg
      · rw [List.mem_append] at hseg
        rcases hseg with h1 | h2
        · split at h1
          · next h => rw [List.mem_singleton] at h1; exact h1 ▸ h
          · exact absurd h1 (List.not_mem_nil seg)
        · exact ih point [point] seg h2
      · exact ih point (cur ++ [point]) seg hseg

/-- The accumulated segment always ends in the point `prev` the loop
compares against, so appending a non-crossing point keeps the segment
free of crossings. Every emitted segment is crossing-free. -/
theorem segmentLoop_chain (rest : List Point) :
    ∀ (prev : Point) (cur : List Point), cur.getLast? = some prev →
      List.Chain' noCross cur →
      ∀ seg ∈ segmentLoop prev rest cur, List.Chain' noCross seg := by
  induction rest with
  | nil =>
      intro prev cur _ hchain seg hseg
      rw [segmentLoop] at hseg
      split at hseg
      · rw [List.mem_singleton] at hseg; exact hseg ▸ hchain
      · exact absurd hseg (List.not_mem_nil seg)
  | cons point ps ih =>
      intro prev cur hlast hchain seg hseg
      rw [segmentLoop] at hseg
      split at hseg
      · rw [List.mem_append] at hseg
        rcases hseg with h1 | h2
        · split at h1
          · rw [List.mem_singleton] at h1; exact h1 ▸ hchain
          · exact absurd h1 (List.not_mem_nil seg)
        · exact ih point [point] rfl (List.chain'_singleton point) seg h2
      · next h =>
          refine ih point (cur ++ [point]) (List.getLast?_concat cur) ?_ seg hseg
          refine hchain.append (List.chain'_singleton point) ?_
          intro x hx y hy
          rw [hlast, Option.mem_some_iff] at hx
          rw [List.head?_cons, Option.mem_some_iff] at hy
          rw [← hx, ← hy] at *
          exact not_lt.mp h

/-- On a crossing-free coordinate walk the loop never splits: it returns
the whole accumulated-plus-remaining run, kept only if long enough. -/
theorem segmentLoop_no_crossings (rest : List Point) :
    ∀ (prev : Point) (cur : List Point), List.Chain' noCross (prev :: rest) →
      segmentLoop prev rest cur =
        if 1 < (cur ++ rest).length then [cur ++ rest] else [] := by
  induction rest with
  | nil => intro prev cur _; rw [segmentLoop, List.append_nil]
  | cons point ps ih =>
      intro prev cur hchain
      rw [List.chain'_cons] at hchain
      rw [segmentLoop, if_neg (not_lt.mpr hchain.1), ih point (cur ++ [point]) hchain.2,
        List.append_assoc, List.singleton_append]

/-- Branch-free evaluation of the color mapper on a non-degenerate
window, with the anchor constants folded. -/
theorem getEarthquakeColorByTime_eval (time s e : ℚ) (h : ¬ e ≤ s) :
    getEarthquakeColorByTime time s e =
      rgbaString (jsRound (220 + 19 * ((time - s) / (e - s))))
        (jsRound (210 + -142 * ((time - s) / (e - s))))
        (jsRound (215 + -147 * ((time - s) / (e - s)))) := by
  rw [getEarthquakeColorByTime, if_neg h]
  norm_num

/-- C1: for every finite input longitude, `normalizeLongitude` (a total,
hence terminating, function of the two normalization loops) returns a
value strictly greater than -180 and at most 180. -/
theorem claim_C1_normalizer_range (lon : ℚ) :
    -180 < normalizeLongitude lon ∧ normalizeLongitude lon ≤ 180 :=
  ⟨normLoopDown_gt _ (normLoopUp_gt lon), normLoopDown_le _⟩

/-- C8: the exact boundary equalities of the normalizer:
-180 ↦ 180, 180 ↦ 180, 540 ↦ 180 and 0 ↦ 0. -/
theorem claim_C8_boundary_cases :
    normalizeLongitude (-180) = 180 ∧ normalizeLongitude 180 = 180 ∧
      normalizeLongitude 540 = 180 ∧ normalizeLongitude 0 = 0 := by
  refine ⟨?_, ?_, ?_, ?_⟩
  · rw [normalizeLongitude, normLoopUp_step _ (by norm_num),
      show (-180 : ℚ) + 360 = 180 by norm_num, normLoopUp_of_gt _ (by norm_num),
      normLoopDown_of_le _ (by norm_num)]
  · exact normalizeLongitude_of_mem 180 (by norm_num) (by norm_num)
  · rw [normalizeLongitude, normLoopUp_of_gt _ (by norm_num),
      normLoopDown_step _ (by norm_num), show (540 : ℚ) - 360 = 180 by norm_num,
      normLoopDown_of_le _ (by norm_num)]
  · exact normalizeLongitude_of_mem 0 (by norm_num) (by norm_num)

/-- C2: every feature emitted by the segmenter `processPlatesData`
carries at least 2 coordinate points; a shorter segment never appears
in the output. -/
theorem claim_C2_min_points {α : Type} (features : List (Feature α)) :
    ∀ f ∈ processPlatesData features, 2 ≤ f.coordinates.length := by
  intro f hf
  rw [processPlatesData, List.mem_flatMap] at hf
  obtain ⟨feat, _, hmem⟩ := hf
  rw [List.mem_map] at hmem
  obtain ⟨seg, hseg, rfl⟩ := hmem
  show 2 ≤ seg.length
  rcases hc : feat.coordinates with _ | ⟨c, cs⟩
  · rw [hc] at hseg
    simp only [segmentCoordinates] at hseg
    exact absurd hseg (List.not_mem_nil seg)
  · rw [hc] at hseg
    simp only [segmentCoordinates] at hseg
    have := segmentLoop_length cs c [c] seg hseg
    omega

/-- C2 witness: the 2-point crossing-free feature is emitted unchanged
and indeed has at least 2 points. -/
theorem claim_C2_witness :
    Feature.mk () [((0 : ℚ), 0), (1, 0)] ∈
        processPlatesData [Feature.mk () [((0 : ℚ), 0), (1, 0)]] ∧
      2 ≤ (Feature.mk () [((0 : ℚ), 0), (1, 0)]).coordinates.length := by
  have hmem : Feature.mk () [((0 : ℚ), 0), (1, 0)] ∈
      processPlatesData [Feature.mk () [((0 : ℚ), 0), (1, 0)]] := by
    norm_num [processPlatesData, segmentCoordinates, segmentLoop]
  exact ⟨hmem, claim_C2_min_points _ _ hmem⟩

/-- C10: inside every segment emitted by `processPlatesData`,
consecutive points never differ by more than 180 in their first
component — the segmenter's own crossing test never fires within an
emitted segment. -/
theorem claim_C10_no_internal_crossing {α : Type} (features : List (Feature α)) :
    ∀ f ∈ processPlatesData features, List.Chain' noCross f.coordinates := by
  intro f hf
  rw [processPlatesData, List.mem_flatMap] at hf
  obtain ⟨feat, _, hmem⟩ := hf
  rw [List.mem_map] at hmem
  obtain ⟨seg, hseg, rfl⟩ := hmem
  show List.Chain' noCross seg
  rcases hc : feat.coordinates with _ | ⟨c, cs⟩
  · rw [hc] at hseg
    simp only [segmentCoordinates] at hseg
    exact absurd hseg (List.not_mem_nil seg)
  · rw [hc] at hseg
    simp only [segmentCoordinates] at hseg
    exact segmentLoop_chain cs c [c] rfl (List.chain'_singleton c) seg hseg

/-- C10 witness: the segment emitted for a concrete crossing-free
feature satisfies the no-internal-crossing chain condition. -/
theorem claim_C10_witness :
    Feature.mk () [((10 : ℚ), 0), (20, 0)] ∈
        processPlatesData [Feature.mk () [((10 : ℚ), 0), (20, 0)]] ∧
      List.Chain' noCross (Feature.mk () [((10 : ℚ), 0), (20, 0)]).coordinates := by
  have hmem : Feature.mk () [((10 : ℚ), 0), (20, 0)] ∈
      processPlatesData [Feature.mk () [((10 : ℚ), 0), (20, 0)]] := by
    norm_num [processPlatesData, segmentCoordinates, segmentLoop]
  exact ⟨hmem, claim_C10_no_internal_crossing _ _ hmem⟩

/-- C6 counterexample: a one-point feature has no pair of consecutive
points, hence no crossings, yet the segmenter emits zero segments for
it rather than one segment equal to the input. -/
theorem claim_C6_counterexample :
    List.Chain' noCross [((0 : ℚ), 0)] ∧
      processPlatesData [Feature.mk () [((0 : ℚ), 0)]] = [] := by
  refine ⟨List.chain'_singleton _, ?_⟩
  norm_num [processPlatesData, segmentCoordinates, segmentLoop]

/-- C6 (amended): for every feature with at least 2 points and no
crossings, segmenting yields exactly one output segment whose point
sequence equals the input feature's point sequence in order. -/
theorem claim_C6_no_crossings {α : Type} (f : Feature α)
    (hlen : 2 ≤ f.coordinates.length)
    (hchain : List.Chain' noCross f.coordinates) :
    processPlatesData [f] = [f] := by
  obtain ⟨p, coords⟩ := f
  rcases coords with _ | ⟨c, cs⟩
  · simp at hlen
  · rw [processPlatesData]
    simp only [List.flatMap_cons, List.flatMap_nil, List.append_nil, segmentCoordinates]
    rw [segmentLoop_no_crossings cs c [c] hchain, List.singleton_append,
      if_pos (by simpa using hlen)]
    rfl

/-- C6 witness: a concrete 2-point crossing-free feature comes back as
the single output feature. -/
theorem claim_C6_witness :
    2 ≤ (Feature.mk () [((0 : ℚ), 0), (1, 0)]).coordinates.length ∧
      List.Chain' noCross (Feature.mk () [((0 : ℚ), 0), (1, 0)]).coordinates ∧
      processPlatesData [Feature.mk () [((0 : ℚ), 0), (1, 0)]] =
        [Feature.mk () [((0 : ℚ), 0), (1, 0)]] := by
  have h1 : 2 ≤ (Feature.mk () [((0 : ℚ), 0), (1, 0)]).coordinates.length := by
    norm_num
  have h2 : List.Chain' noCross (Feature.mk () [((0 : ℚ), 0), (1, 0)]).coordinates := by
    norm_num [List.chain'_cons, noCross]
  exact ⟨h1, h2, claim_C6_no_crossings _ h1 h2⟩

/-- C4: the 2-point crossing feature [(179,0), (-179,0)] yields zero
segments, and the 3-point feature [(170,0), (-170,0), (-160,0)] yields
exactly the single segment [(-170,0), (-160,0)]. -/
theorem claim_C4_crossing_split :
    processPlatesData [Feature.mk () [((179 : ℚ), 0), (-179, 0)]] = [] ∧
      processPlatesData [Feature.mk () [((170 : ℚ), 0), (-170, 0), (-160, 0)]] =
        [Feature.mk () [((-170 : ℚ), 0), (-160, 0)]] := by
  constructor <;> norm_num [processPlatesData, segmentCoordinates, segmentLoop]

/-- C5: whenever the window end does not exceed its start, the color
mapper returns the fixed sentinel string for every event time, without
any error. -/
theorem claim_C5_degenerate_window (time startTime endTime : ℚ)
    (h : endTime ≤ startTime) :
    getEarthquakeColorByTime time startTime endTime = "rgba(239, 68, 68, 0.75)" := by
  rw [getEarthquakeColorByTime, if_pos h]

/-- C5 witness: a concrete degenerate window. -/
theorem claim_C5_witness :
    (5 : ℚ) ≤ 7 ∧ getEarthquakeColorByTime 123 7 5 = "rgba(239, 68, 68, 0.75)" :=
  ⟨by norm_num, claim_C5_degenerate_window 123 7 5 (by norm_num)⟩

/-- C7: on a non-degenerate window the color mapper returns the old
anchor color at the window start and the recent anchor color at the
window end. -/
theorem claim_C7_endpoints (startTime endTime : ℚ) (h : startTime < endTime) :
    getEarthquakeColorByTime startTime startTime endTime =
        "rgba(220, 210, 215, 0.75)" ∧
      getEarthquakeColorByTime endTime startTime endTime =
        "rgba(239, 68, 68, 0.75)" := by
  have hne : endTime - startTime ≠ 0 := sub_ne_zero.mpr (ne_of_gt h)
  constructor
  · rw [getEarthquakeColorByTime_eval _ _ _ (not_le.mpr h), sub_self, zero_div]
    norm_num [jsRound, rgbaString]
    rfl
  · rw [getEarthquakeColorByTime_eval _ _ _ (not_le.mpr h), div_self hne]
    norm_num [jsRound, rgbaString]
    rfl

/-- C7 witness: endpoints of the concrete window [0, 10]. -/
theorem claim_C7_witness :
    (0 : ℚ) < 10 ∧
      getEarthquakeColorByTime 0 0 10 = "rgba(220, 210, 215, 0.75)" ∧
      getEarthquakeColorByTime 10 0 10 = "rgba(239, 68, 68, 0.75)" :=
  ⟨by norm_num, (claim_C7_endpoints 0 10 (by norm_num)).1,
    (claim_C7_endpoints 0 10 (by norm_num)).2⟩

/-- C9: at the exact midpoint of a non-degenerate window (normalized
position 1/2) each channel is the half-up-rounded average of its two
anchors, giving the color rgba(230, 139, 142, 0.75). -/
theorem claim_C9_midpoint (startTime endTime : ℚ) (h : startTime < endTime) :
    getEarthquakeColorByTime ((startTime + endTime) / 2) startTime endTime =
      "rgba(230, 139, 142, 0.75)" := by
  have hne : endTime - startTime ≠ 0 := sub_ne_zero.mpr (ne_of_gt h)
  have ht : ((startTime + endTime) / 2 - startTime) / (endTime - startTime) = 1 / 2 := by
    rw [div_eq_iff hne]
    ring
  rw [getEarthquakeColorByTime_eval _ _ _ (not_le.mpr h), ht]
  norm_num [jsRound, rgbaString]
  rfl

/-- C9 witness: midpoint of the concrete window [0, 2]. -/
theorem claim_C9_witness :
    (0 : ℚ) < 2 ∧
      getEarthquakeColorByTime ((0 + 2) / 2) 0 2 = "rgba(230, 139, 142, 0.75)" :=
  ⟨by norm_num, claim_C9_midpoint 0 2 (by norm_num)⟩

/-- C3 (code evaluated at the failing input): the loadData pipeline maps
each raw pair [lon, lat] to [lat, normalized lon], so the pairs handed
to the segmenter carry the latitude — not the longitude — as their first
component: for the raw crossing feature [(179, 0), (-179, 0)] the first
components seen by the segmenter are [0, 0] while the normalized
longitudes sit in the second slot, and the crossing feature is emitted
unsplit as one segment instead of being split at the antimeridian. -/
theorem claim_C3_latitude_first :
    (loadDataMapCoords [((179 : ℚ), 0), (-179, 0)]).map Prod.fst = [0, 0] ∧
      (loadDataMapCoords [((179 : ℚ), 0), (-179, 0)]).map Prod.snd = [179, -179] ∧
      platesPipeline [Feature.mk () [((179 : ℚ), 0), (-179, 0)]] =
        [Feature.mk () [((0 : ℚ), 179), (0, -179)]] := by
  have h179 : normalizeLongitude 179 = 179 :=
    normalizeLongitude_of_mem 179 (by norm_num) (by norm_num)
  have hm179 : normalizeLongitude (-179) = -179 :=
    normalizeLongitude_of_mem (-179) (by norm_num) (by norm_num)
  refine ⟨?_, ?_, ?_⟩ <;>
    norm_num [platesPipeline, processPlatesData, segmentCoordinates, segmentLoop,
      loadDataNormalizeFeature, loadDataMapCoords, h179, hm179]

end Earthquakes
